import Mathlib

/-!
Water-pour puzzle: verification of the combinatorial core.

Shallow embedding of the puzzle core of `water-pour-fun`
(`src/components/logic/GameLogic.ts` and `src/components/objects/Tube.ts`):
tubes of colored segments, the forward pour rule, the move ledger with undo,
the bounded breadth-first solvability search, and the reverse-pour puzzle
generator.  JS arrays of colors become `List Nat` with index 0 = bottom and
the last element = top; `push`/`pop` become append/drop at the end.
Randomness in the generator becomes an explicit stream of choices
(`List Nat`), one entry consumed per `Math.random()` call, the entry taken
modulo the length of the valid-move list (every concrete random draw
corresponds to such a choice and vice versa).
-/

namespace WaterPour

/-- A tube (`Tube.ts`): ordered stack of color ids (index 0 = bottom, last =
top) together with its capacity `maxHeight`. -/
structure Tube where
  colors : List Nat
  maxHeight : Nat
deriving DecidableEq, Repr

def defaultTube : Tube := ⟨[], 0⟩

/-- `Tube.isEmpty`. -/
def Tube.isEmpty (t : Tube) : Bool := t.colors.isEmpty

/-- `Tube.isFull`: `colors.length >= maxHeight`. -/
def Tube.isFull (t : Tube) : Bool := t.maxHeight ≤ t.colors.length

/-- `Tube.getTopColor`: the last element, or `null` when empty. -/
def Tube.getTopColor (t : Tube) : Option Nat := t.colors.getLast?

/-- Length of the run of `c`s at the head of a list. -/
def runFrom (c : Nat) : List Nat → Nat
  | [] => 0
  | x :: xs => if x = c then 1 + runFrom c xs else 0

/-- `getConsecutiveTopColors`: length of the maximal uniform suffix (counted
from the top, i.e. from the end of the list); 0 on an empty tube. -/
def topRun (l : List Nat) : Nat :=
  match l.reverse with
  | [] => 0
  | c :: rest => 1 + runFrom c rest

def Tube.getConsecutiveTopColors (t : Tube) : Nat := topRun t.colors

/-- `Tube.removeTopColors`: pop `n` times, each pop guarded by non-emptiness. -/
def popTops : Nat → List Nat → List Nat
  | 0, l => l
  | n + 1, l => popTops n (if l.isEmpty then l else l.dropLast)

def Tube.removeTopColors (t : Tube) (n : Nat) : Tube :=
  { t with colors := popTops n t.colors }

/-- `Tube.addColors`: push `c` `n` times, each push guarded by `!isFull`. -/
def pushTops (cap c : Nat) : Nat → List Nat → List Nat
  | 0, l => l
  | n + 1, l => pushTops cap c n (if cap ≤ l.length then l else l ++ [c])

def Tube.addColors (t : Tube) (c n : Nat) : Tube :=
  { t with colors := pushTops t.maxHeight c n t.colors }

/-- `colors.every(c => c === colors[0])`. -/
def allEqFirst : List Nat → Bool
  | [] => true
  | c :: cs => (c :: cs).all (fun x => x == c)

/-- `Tube.isCompleted` (the `Tube.ts` version): full and monochrome.
An empty tube is NOT completed unless `maxHeight = 0`. -/
def Tube.isCompleted (t : Tube) : Bool :=
  t.colors.length == t.maxHeight && allEqFirst t.colors

/-- A recorded move (`interface Move` in `GameLogic.ts`). -/
structure Move where
  fromIndex : Nat
  toIndex : Nat
  color : Nat
  count : Nat
deriving DecidableEq, Repr

/-- The mutable state owned by `GameLogic`: the tubes and the move ledger. -/
structure GameState where
  tubes : List Tube
  moveHistory : List Move
deriving DecidableEq, Repr

/-- In-place mutation of `this.tubes[i]` becomes a functional list update. -/
def modifyAt {α : Type} (f : α → α) : Nat → List α → List α
  | _, [] => []
  | 0, t :: ts => f t :: ts
  | n + 1, t :: ts => t :: modifyAt f n ts

/-- `interface PourAttempt`. -/
structure PourAttempt where
  canPour : Bool
  segmentsToPour : Nat
deriving DecidableEq, Repr

/-- `calculatePourAttempt`: legality and run length of a candidate pour. -/
def calculatePourAttempt (fromT toT : Tube) : PourAttempt :=
  if fromT.isEmpty then ⟨false, 0⟩
  else
    match fromT.getTopColor with
    | none => ⟨false, 0⟩
    | some topFromColor =>
      let segmentsToPour := fromT.getConsecutiveTopColors
      let toTopColor := toT.getTopColor
      let spaceAvailable := toT.maxHeight - toT.colors.length
      let canPour :=
        decide (0 < spaceAvailable) &&
          (toTopColor == none || toTopColor == some topFromColor)
      ⟨canPour, segmentsToPour⟩

/-- `executePour`: remove from the source, add to the destination (in this
order, so that a same-index pour aliases correctly), append to the ledger. -/
def executePour (s : GameState) (fi ti c n : Nat) : GameState :=
  let tubes1 := modifyAt (fun t => t.removeTopColors n) fi s.tubes
  let tubes2 := modifyAt (fun t => t.addColors c n) ti tubes1
  { tubes := tubes2, moveHistory := s.moveHistory ++ [⟨fi, ti, c, n⟩] }

/-- `pour`: returns whether the pour succeeded together with the new state. -/
def pour (s : GameState) (fi ti : Nat) : Bool × GameState :=
  let fromT := s.tubes.getD fi defaultTube
  let toT := s.tubes.getD ti defaultTube
  let pa := calculatePourAttempt fromT toT
  if !pa.canPour then (false, s)
  else
    match fromT.getTopColor with
    | none => (false, s)
    | some c =>
      let spaceAvailable := toT.maxHeight - toT.colors.length
      let n := min pa.segmentsToPour spaceAvailable
      (true, executePour s fi ti c n)

/-- `undo`: pop the most recent ledger entry and transfer its segments back. -/
def undo (s : GameState) : Bool × GameState :=
  match s.moveHistory.getLast? with
  | none => (false, s)
  | some lastMove =>
    let hist := s.moveHistory.dropLast
    let tubes1 :=
      modifyAt (fun t => t.removeTopColors lastMove.count) lastMove.toIndex s.tubes
    let tubes2 :=
      modifyAt (fun t => t.addColors lastMove.color lastMove.count)
        lastMove.fromIndex tubes1
    (true, { tubes := tubes2, moveHistory := hist })

/-- The tube at index `i` (out-of-range reads give the default tube, which
never satisfies any pour precondition). -/
def tubeAt (s : GameState) (i : Nat) : Tube := s.tubes.getD i defaultTube

/-- The number of segments a successful pour moves:
`min(runLength, capacity)`. -/
def pourCount (s : GameState) (fi ti : Nat) : Nat :=
  min (topRun (tubeAt s fi).colors)
    ((tubeAt s ti).maxHeight - (tubeAt s ti).colors.length)

/-- `isSolved` (the `GameLogic.ts` version): delegates to the `Tube.ts`
`isCompleted`, which does not treat an empty tube as completed. -/
def isSolved (tubes : List Tube) : Bool := tubes.all (fun t => t.isCompleted)

/-! ## Solvability search (the `MinimalTube` side of `GameLogic.ts`)

`isSolvable` converts the tubes to minimal tubes that all share
`tubes[0].maxHeight`; a board is therefore a `List (List Nat)` plus one
shared height. -/

/-- `MinimalTube.isCompleted`: empty, or full and monochrome.  (Unlike the
`Tube.ts` version, empty counts as completed.) -/
def minCompleted (h : Nat) (l : List Nat) : Bool :=
  l.isEmpty || (l.length == h && allEqFirst l)

/-- `isAlreadySolved`. -/
def isAlreadySolved (h : Nat) (board : List (List Nat)) : Bool :=
  board.all (fun l => minCompleted h l)

/-- Total number of segments of color `c` on the board. -/
def countColor (c : Nat) (board : List (List Nat)) : Nat :=
  (board.map (fun l => l.count c)).sum

/-- `hasValidColorCounts`: every color that occurs anywhere occurs exactly
`h` times in total (the JS loop over the `colorCounts` record visits each
present color; checking every occurrence's color is equivalent). -/
def hasValidColorCounts (h : Nat) (board : List (List Nat)) : Bool :=
  board.all (fun l => l.all (fun c => countColor c board == h))

/-- `MinimalTube.removeTopColors`: `splice(len - n, n)`. -/
def minRemoveTop (n : Nat) (l : List Nat) : List Nat := l.take (l.length - n)

/-- `MinimalTube.addColors`: push `n` copies of `c` (unguarded). -/
def minAdd (c n : Nat) (l : List Nat) : List Nat := l ++ List.replicate n c

/-- One candidate successor inside `generateNextStates`: applies every skip
and legality test of the nested loops to the pair `(fi, ti)`. -/
def nextStateFor (h : Nat) (board : List (List Nat)) (fi ti : Nat) :
    Option (List (List Nat)) :=
  let fromT := board.getD fi []
  if fromT.isEmpty || minCompleted h fromT then none
  else
    match fromT.getLast? with
    | none => none
    | some topFromColor =>
      let segmentsToPour := topRun fromT
      if fi == ti then none
      else
        let toT := board.getD ti []
        if toT.length == h || minCompleted h toT then none
        else
          let toTopColor := toT.getLast?
          let spaceAvailable := h - toT.length
          if toT.isEmpty && segmentsToPour < h &&
              segmentsToPour < fromT.length then none
          else
            let canPour :=
              decide (0 < spaceAvailable) &&
                (toTopColor == none || toTopColor == some topFromColor)
            if canPour then
              let n := min segmentsToPour spaceAvailable
              some (modifyAt (fun l => minAdd topFromColor n l) ti
                (modifyAt (fun l => minRemoveTop n l) fi board))
            else none

/-- `generateNextStates`: all successors, with the `(fromIndex, toIndex)`
pair that produced each one. -/
def generateNextStates (h : Nat) (board : List (List Nat)) :
    List (Nat × Nat × List (List Nat)) :=
  (List.range board.length).flatMap fun fi =>
    (List.range board.length).filterMap fun ti =>
      (nextStateFor h board fi ti).map fun nb => (fi, ti, nb)

/-- `createStateHashFunction`: each tube's colors joined by `","`. -/
def tubeHash (l : List Nat) : String :=
  String.intercalate "," (l.map toString)

/-- Board key: tube hashes joined by `"|"`. -/
def stateHash (board : List (List Nat)) : String :=
  String.intercalate "|" (board.map tubeHash)

/-- `MAX_BFS_STATES` in `GameLogic.ts`. -/
def MAX_BFS_STATES : Nat := 500000

/-- The inner `for (const { newTubes, hash } of newStates)` loop of
`performSolvabilityBFS`: `.error b` models an early `return b`, `.ok`
carries the updated queue and visited set to the next BFS iteration. -/
def processNew (h : Nat) :
    List (List (List Nat)) → List (List (List Nat)) → List String →
    Except Bool (List (List (List Nat)) × List String)
  | [], queue, visited => .ok (queue, visited)
  | nb :: rest, queue, visited =>
    if isAlreadySolved h nb then .error true
    else if visited.contains (stateHash nb) then processNew h rest queue visited
    else if MAX_BFS_STATES < (visited ++ [stateHash nb]).length then .error false
    else processNew h rest (queue ++ [nb]) (visited ++ [stateHash nb])

/-- The `while (queue.length > 0)` loop of `performSolvabilityBFS`, with an
explicit fuel for termination; out of fuel yields `false`.  The number of
loop iterations is bounded by the total number of queue pushes, which the
budget check keeps below `MAX_BFS_STATES + 2`, so `BFS_FUEL` below is never
exhausted on a run the JS loop completes. -/
def bfsAux (h : Nat) : Nat → List (List (List Nat)) → List String → Bool
  | 0, _, _ => false
  | _ + 1, [], _ => false
  | fuel + 1, board :: rest, visited =>
    let succs := (generateNextStates h board).map fun x => x.2.2
    match processNew h succs rest visited with
    | .error b => b
    | .ok (queue2, visited2) => bfsAux h fuel queue2 visited2

def BFS_FUEL : Nat := MAX_BFS_STATES + 3

/-- `performSolvabilityBFS`. -/
def performSolvabilityBFS (h : Nat) (board : List (List Nat)) : Bool :=
  bfsAux h BFS_FUEL [board] [stateHash board]

/-- `isSolvable` on a minimal board. -/
def isSolvableBoard (h : Nat) (board : List (List Nat)) : Bool :=
  if isAlreadySolved h board then true
  else if !hasValidColorCounts h board then false
  else performSolvabilityBFS h board

/-- `isSolvable` on the live tubes: empty tube list is unsolvable; otherwise
every minimal tube gets `tubes[0].maxHeight` as its height. -/
def isSolvable (tubes : List Tube) : Bool :=
  match tubes with
  | [] => false
  | t0 :: _ => isSolvableBoard t0.maxHeight (tubes.map fun t => t.colors)

/-! ## Puzzle generation (`generateSolvablePuzzleFromSolvedState`) -/

/-- The `validMoves` list built by `applyRandomReversePour`:
`(fromIndex, toIndex, count)` triples, `count` always 1. -/
def reverseValidMoves (tubes : List Tube) : List (Nat × Nat × Nat) :=
  (List.range tubes.length).flatMap fun fi =>
    let fromTube := tubes.getD fi defaultTube
    if fromTube.isEmpty then []
    else
      (List.range tubes.length).filterMap fun ti =>
        if fi == ti then none
        else
          let toTube := tubes.getD ti defaultTube
          match fromTube.getTopColor with
          | none => none
          | some _ =>
            if toTube.colors.length < toTube.maxHeight then some (fi, ti, 1)
            else none

/-- `applyRandomReversePour`, with the random draw replaced by the head of
the choice stream (taken modulo the number of valid moves).  A choice is
consumed exactly when `Math.random()` is called, i.e. when the valid-move
list is non-empty. -/
def applyRandomReversePour (tubes : List Tube) (choices : List Nat) :
    List Tube × List Nat :=
  let validMoves := reverseValidMoves tubes
  if validMoves.isEmpty then (tubes, choices)
  else
    let k := choices.headD 0
    let mv := validMoves.getD (k % validMoves.length) (0, 0, 0)
    let fromTube := tubes.getD mv.1 defaultTube
    match fromTube.getTopColor with
    | none => (tubes, choices.tail)
    | some c =>
      let tubes1 := modifyAt (fun t => t.removeTopColors mv.2.2) mv.1 tubes
      let tubes2 := modifyAt (fun t => t.addColors c mv.2.2) mv.2.1 tubes1
      (tubes2, choices.tail)

/-- `n` consecutive reverse pours. -/
def applyReversePours : Nat → List Tube → List Nat → List Tube × List Nat
  | 0, tubes, choices => (tubes, choices)
  | n + 1, tubes, choices =>
    let r := applyRandomReversePour tubes choices
    applyReversePours n r.1 r.2

/-- `clearTubes` followed by the seed-filling loops: tube `i < colorCount`
holds `tubeHeight` segments of color `i`, every other tube is empty. -/
def seedSolved (tubeHeight colorCount : Nat) (tubes : List Tube) : List Tube :=
  tubes.mapIdx fun i t =>
    { t with colors := if i < colorCount then List.replicate tubeHeight i else [] }

/-- The `while (!isSolvable && attempts < maxAttempts)` loop: reseed,
scramble with `tubeHeight * tubeCount * 2` reverse pours, test.  Returns the
tubes, the remaining choices, and whether some attempt passed `isSolvable`. -/
def genAttemptLoop (tubeCount tubeHeight : Nat) :
    Nat → List Tube → List Nat → List Tube × List Nat × Bool
  | 0, tubes, choices => (tubes, choices, false)
  | n + 1, tubes, choices =>
    let tubes1 := seedSolved tubeHeight (tubeCount - 1) tubes
    let r := applyReversePours (tubeHeight * tubeCount * 2) tubes1 choices
    if isSolvable r.1 then (r.1, r.2, true)
    else genAttemptLoop tubeCount tubeHeight n r.1 r.2

/-- `createSimpleSolvablePuzzle`: reseed, then only `min 5 tubeHeight`
reverse pours, with no solvability re-check. -/
def createSimpleSolvablePuzzle (tubeHeight colorCount : Nat)
    (tubes : List Tube) (choices : List Nat) : List Tube × List Nat :=
  let tubes1 := seedSolved tubeHeight colorCount tubes
  applyReversePours (min 5 tubeHeight) tubes1 choices

/-- `generateSolvablePuzzleFromSolvedState`: up to 5 verified attempts, then
the unverified simple-puzzle fallback.  `validateTubes` only rejects an
empty tube list. -/
def generateSolvablePuzzleFromSolvedState (tubes : List Tube)
    (choices : List Nat) : List Tube :=
  if tubes.isEmpty then tubes
  else
    let tubeCount := tubes.length
    let tubeHeight := (tubes.getD 0 defaultTube).maxHeight
    let r := genAttemptLoop tubeCount tubeHeight 5 tubes choices
    if r.2.2 then r.1
    else (createSimpleSolvablePuzzle tubeHeight (tubeCount - 1) r.1 r.2.1).1

/-- `setup`: runs generation and returns `generateSolvablePuzzle()`'s
return value, which is unconditionally `true`. -/
def setup (tubes : List Tube) (choices : List Nat) : Bool × List Tube :=
  (true, generateSolvablePuzzleFromSolvedState tubes choices)

/-- Three empty tubes of height 3: the live tubes for `tubeCount = 3`,
`tubeHeight = 3` before generation runs. -/
def cexTubes : List Tube := [⟨[], 3⟩, ⟨[], 3⟩, ⟨[], 3⟩]

/-- A realizable sequence of random draws for `generate(3, 3)`: five
attempts of 18 shuffle pours each (every attempt ends in a state the
bounded search rejects, so the loop exhausts its 5 attempts), then the 3
fallback pours, which land on `[[0,0,1],[1,1,0],[]]` — a state `isSolvable`
also rejects. -/
def cexChoices : List Nat :=
  (List.replicate 5 ((List.replicate 16 0) ++ [3, 0])).flatten ++ [0, 1, 3]

end WaterPour

namespace WaterPour

/-! ## Helper lemmas -/

theorem modifyAt_length {α : Type} (f : α → α) (i : Nat) (l : List α) :
    (modifyAt f i l).length = l.length := by
  induction l generalizing i with
  | nil => cases i <;> rfl
  | cons x xs ih =>
    cases i with
    | zero => rfl
    | succ n => simp [modifyAt, ih]

theorem modifyAt_modifyAt {α : Type} (f g : α → α) (i : Nat) (l : List α) :
    modifyAt f i (modifyAt g i l) = modifyAt (fun x => f (g x)) i l := by
  induction l generalizing i with
  | nil => cases i <;> rfl
  | cons x xs ih =>
    cases i with
    | zero => rfl
    | succ n => simp [modifyAt, ih]

theorem modifyAt_comm {α : Type} (f g : α → α) (i j : Nat) (l : List α)
    (hij : i ≠ j) :
    modifyAt f i (modifyAt g j l) = modifyAt g j (modifyAt f i l) := by
  induction l generalizing i j with
  | nil => cases i <;> cases j <;> rfl
  | cons x xs ih =>
    cases i with
    | zero =>
      cases j with
      | zero => exact absurd rfl hij
      | succ m => rfl
    | succ n =>
      cases j with
      | zero => rfl
      | succ m =>
        simp only [modifyAt]
        rw [ih]
        intro hc; exact hij (by rw [hc])

theorem modifyAt_eq_self {α : Type} (f : α → α) (i : Nat) (l : List α) (d : α)
    (hi : i < l.length) (h : f (l.getD i d) = l.getD i d) :
    modifyAt f i l = l := by
  induction l generalizing i with
  | nil => simp at hi
  | cons x xs ih =>
    cases i with
    | zero => simpa [modifyAt] using h
    | succ n =>
      simp only [modifyAt, List.cons.injEq, true_and]
      exact ih n (by simpa using hi) (by simpa using h)

theorem modifyAt_getD_same {α : Type} (f : α → α) (i : Nat) (l : List α) (d : α)
    (hi : i < l.length) :
    (modifyAt f i l).getD i d = f (l.getD i d) := by
  induction l generalizing i with
  | nil => simp at hi
  | cons x xs ih =>
    cases i with
    | zero => rfl
    | succ n => simpa [modifyAt] using ih n (by simpa using hi)

theorem modifyAt_getD_other {α : Type} (f : α → α) (i j : Nat) (l : List α)
    (d : α) (hij : i ≠ j) :
    (modifyAt f i l).getD j d = l.getD j d := by
  induction l generalizing i j with
  | nil => cases i <;> rfl
  | cons x xs ih =>
    cases i with
    | zero =>
      cases j with
      | zero => exact absurd rfl hij
      | succ m => rfl
    | succ n =>
      cases j with
      | zero => rfl
      | succ m =>
        simp only [modifyAt, List.getD_cons_succ]
        exact ih n m (by intro hc; exact hij (by rw [hc]))

theorem popTops_append (l l2 : List Nat) :
    popTops l2.length (l ++ l2) = l := by
  induction l2 using List.reverseRecOn with
  | nil => simp [popTops]
  | append_singleton l2 a ih =>
    have hne : l ++ (l2 ++ [a]) ≠ [] := by simp
    simp only [List.length_append, List.length_cons, List.length_nil]
    rw [show l2.length + (0 + 1) = l2.length + 1 by omega]
    simp only [popTops]
    rw [if_neg (by simp)]
    rw [show (l ++ (l2 ++ [a])).dropLast = l ++ l2 by
      rw [← List.append_assoc]; exact List.dropLast_concat]
    exact ih

theorem pushTops_eq_append (cap c : Nat) : ∀ (n : Nat) (l : List Nat),
    l.length + n ≤ cap → pushTops cap c n l = l ++ List.replicate n c := by
  intro n
  induction n with
  | zero => intro l _; simp [pushTops]
  | succ m ih =>
    intro l hl
    have hlt : ¬ cap ≤ l.length := by omega
    simp only [pushTops, if_neg hlt]
    rw [ih (l ++ [c]) (by simp; omega)]
    simp [List.replicate_succ]

theorem runFrom_le_length (c : Nat) (l : List Nat) : runFrom c l ≤ l.length := by
  induction l with
  | nil => simp [runFrom]
  | cons x xs ih =>
    simp only [runFrom]
    split
    · simpa [Nat.add_comm] using Nat.add_le_add_right ih 1
    · simp

theorem runFrom_take (c : Nat) : ∀ (n : Nat) (l : List Nat),
    n ≤ runFrom c l → l.take n = List.replicate n c := by
  intro n
  induction n with
  | zero => intro l _; simp
  | succ m ih =>
    intro l hn
    cases l with
    | nil => simp [runFrom] at hn
    | cons x xs =>
      simp only [runFrom] at hn
      by_cases hx : x = c
      · rw [if_pos hx] at hn
        subst hx
        simp only [List.take_succ_cons, List.replicate_succ, List.cons.injEq,
          true_and]
        exact ih xs (by omega)
      · rw [if_neg hx] at hn; omega

theorem topRun_eq (l : List Nat) (c : Nat) (rest : List Nat)
    (hrevl : l.reverse = c :: rest) : topRun l = 1 + runFrom c rest := by
  unfold topRun
  rw [hrevl]

theorem topRun_le_length (l : List Nat) : topRun l ≤ l.length := by
  cases hrevl : l.reverse with
  | nil =>
    have : l = [] := by simpa using congrArg List.reverse hrevl
    subst this
    simp [topRun]
  | cons c rest =>
    rw [topRun_eq l c rest hrevl]
    have hlen : l.length = rest.length + 1 := by
      have := congrArg List.length hrevl
      simp at this
      omega
    have := runFrom_le_length c rest
    omega

theorem topRun_decompose (l : List Nat) (c : Nat) (hl : l.getLast? = some c)
    (n : Nat) (hn : n ≤ topRun l) :
    ∃ l₁, l = l₁ ++ List.replicate n c ∧ l₁.length = l.length - n := by
  rcases l.eq_nil_or_concat with rfl | ⟨l', a, rfl⟩
  · simp at hl
  · simp only [List.concat_eq_append] at hl hn ⊢
    have hac : a = c := by simpa using hl
    subst hac
    have hrevl : (l' ++ [a]).reverse = a :: l'.reverse := by simp
    have htr : topRun (l' ++ [a]) = 1 + runFrom a l'.reverse :=
      topRun_eq _ _ _ hrevl
    have htake : (l' ++ [a]).reverse.take n = List.replicate n a := by
      rw [hrevl]
      cases n with
      | zero => simp
      | succ m =>
        simp only [List.take_succ_cons, List.replicate_succ, List.cons.injEq,
          true_and]
        exact runFrom_take a m l'.reverse (by omega)
    refine ⟨((l' ++ [a]).reverse.drop n).reverse, ?_, by simp⟩
    conv_lhs => rw [← (l' ++ [a]).reverse_reverse,
      ← List.take_append_drop n (l' ++ [a]).reverse]
    rw [List.reverse_append, htake, List.reverse_replicate]

end WaterPour

namespace WaterPour

theorem canPour_iff (fT tT : Tube) :
    (calculatePourAttempt fT tT).canPour = true ↔
      (fT.colors ≠ [] ∧ tT.colors.length < tT.maxHeight ∧
        (tT.colors = [] ∨ tT.colors.getLast? = fT.colors.getLast?)) := by
  unfold calculatePourAttempt
  rcases hfc : fT.colors.getLast? with _ | c
  · have hnil : fT.colors = [] := List.getLast?_eq_none_iff.mp hfc
    simp [Tube.isEmpty, hnil]
  · have hne : fT.colors ≠ [] := by
      intro hcon; rw [hcon] at hfc; simp at hfc
    have hemp : fT.isEmpty = false := by
      simp [Tube.isEmpty, hne]
    rw [if_neg (by simp [hemp])]
    simp only [Tube.getTopColor, hfc]
    simp only [PourAttempt.canPour, Bool.and_eq_true, Bool.or_eq_true,
      decide_eq_true_eq, beq_iff_eq, hne, ne_eq, not_false_eq_true, true_and]
    rw [Nat.sub_pos_iff_lt]
    constructor
    · rintro ⟨hsp, hc⟩
      exact ⟨hsp, by
        rcases hc with hc | hc
        · exact Or.inl (List.getLast?_eq_none_iff.mp hc)
        · exact Or.inr hc⟩
    · rintro ⟨hsp, hc⟩
      refine ⟨hsp, ?_⟩
      rcases hc with hc | hc
      · exact Or.inl (by simp [hc])
      · exact Or.inr hc

theorem pour_fst (s : GameState) (fi ti : Nat) :
    (pour s fi ti).1 =
      (calculatePourAttempt (tubeAt s fi) (tubeAt s ti)).canPour := by
  unfold pour tubeAt
  by_cases hc :
      (calculatePourAttempt (s.tubes.getD fi defaultTube)
        (s.tubes.getD ti defaultTube)).canPour = true
  · obtain ⟨hne, -, -⟩ :=
      (canPour_iff (s.tubes.getD fi defaultTube)
        (s.tubes.getD ti defaultTube)).mp hc
    rcases hfc : (s.tubes.getD fi defaultTube).colors.getLast? with _ | c
    · exact absurd (List.getLast?_eq_none_iff.mp hfc) hne
    · simp only [hc, Bool.not_true, Bool.false_eq_true, if_false,
        Tube.getTopColor, hfc]
  · rw [Bool.not_eq_true] at hc
    simp only [hc, Bool.not_false, if_true]

theorem pour_eq_of_canPour (s : GameState) (fi ti : Nat)
    (hcan : (calculatePourAttempt (tubeAt s fi) (tubeAt s ti)).canPour = true) :
    ∃ c, (tubeAt s fi).colors.getLast? = some c ∧
      pour s fi ti = (true, executePour s fi ti c (pourCount s fi ti)) := by
  obtain ⟨hne, -, -⟩ := (canPour_iff _ _).mp hcan
  rcases hfc : (tubeAt s fi).colors.getLast? with _ | c
  · exact absurd (List.getLast?_eq_none_iff.mp hfc) hne
  · refine ⟨c, rfl, ?_⟩
    have hseg : (calculatePourAttempt (tubeAt s fi) (tubeAt s ti)).segmentsToPour
        = topRun (tubeAt s fi).colors := by
      unfold calculatePourAttempt
      rw [if_neg (by simp [Tube.isEmpty, hne])]
      simp only [Tube.getTopColor, hfc]
      rfl
    unfold pour
    rw [show s.tubes.getD fi defaultTube = tubeAt s fi from rfl,
      show s.tubes.getD ti defaultTube = tubeAt s ti from rfl]
    simp only [hcan, Bool.not_true, Bool.false_eq_true, if_false,
      Tube.getTopColor, hfc, hseg]
    rfl

theorem tube_remove_add (t : Tube) (c n : Nat)
    (h : t.colors.length + n ≤ t.maxHeight) :
    (t.addColors c n).removeTopColors n = t := by
  cases t with
  | mk colors cap =>
    simp only [Tube.addColors, Tube.removeTopColors]
    simp only [Tube.mk.injEq, and_true]
    rw [pushTops_eq_append cap c n colors h]
    have hp := popTops_append colors (List.replicate n c)
    simpa using hp

theorem tube_add_remove (t : Tube) (c n : Nat) (l₁ : List Nat)
    (hdecomp : t.colors = l₁ ++ List.replicate n c)
    (hlen : t.colors.length ≤ t.maxHeight) :
    (t.removeTopColors n).addColors c n = t := by
  cases t with
  | mk colors cap =>
    simp only at hdecomp hlen
    subst hdecomp
    simp only [Tube.removeTopColors, Tube.addColors, Tube.mk.injEq, and_true]
    have hp := popTops_append l₁ (List.replicate n c)
    simp only [List.length_replicate] at hp
    rw [hp]
    refine pushTops_eq_append cap c n l₁ ?_
    simp at hlen
    omega

end WaterPour

namespace WaterPour

/-- Claim C2 counterexample: `pour` itself does not reject a same-index pour.
On the single-tube state with colors `[0]` and `maxHeight 2`, `pour 0 0`
succeeds (source non-empty, capacity 1 > 0, top color trivially matches
itself), contradicting "pouring into the same tube index is always illegal
and rejected": the same-tube rejection lives in the click handler
(`handleSecondTubeClick`), not in `pour`/`calculatePourAttempt`. -/
theorem pour_same_tube_succeeds :
    (pour ⟨[⟨[0], 2⟩], []⟩ 0 0).1 = true := by decide

/-- Claim C2 (amended): a forward pour succeeds iff the source tube is
non-empty, the destination has capacity > 0, and the destination is empty
or its top color equals the source's top color — with no same-tube
rejection inside `pour` itself (`pour i i` succeeds whenever tube `i` is
non-empty and not full; distinct-tube enforcement happens in the click
handler before `pour` is called). -/
theorem pour_succeeds_iff (s : GameState) (fi ti : Nat) :
    (pour s fi ti).1 = true ↔
      ((tubeAt s fi).colors ≠ [] ∧
       (tubeAt s ti).colors.length < (tubeAt s ti).maxHeight ∧
       ((tubeAt s ti).colors = [] ∨
        (tubeAt s ti).colors.getLast? = (tubeAt s fi).colors.getLast?)) := by
  rw [pour_fst]
  exact canPour_iff _ _

/-- Claim C8: when the legality check fails (`canPour == false`), `pour`
returns failure and the state — every tube and the move ledger — is
returned unchanged. -/
theorem pour_rejected_noop (s : GameState) (fi ti : Nat)
    (h : (calculatePourAttempt (tubeAt s fi) (tubeAt s ti)).canPour = false) :
    pour s fi ti = (false, s) := by
  unfold tubeAt at h
  unfold pour
  simp only [h, Bool.not_false, if_true]

/-- Witness for `pour_rejected_noop`: pouring from an empty tube is
rejected and changes nothing. -/
theorem pour_rejected_noop_witness :
    (calculatePourAttempt (tubeAt ⟨[⟨[], 2⟩, ⟨[0], 2⟩], []⟩ 0)
        (tubeAt ⟨[⟨[], 2⟩, ⟨[0], 2⟩], []⟩ 1)).canPour = false ∧
      pour ⟨[⟨[], 2⟩, ⟨[0], 2⟩], []⟩ 0 1 = (false, ⟨[⟨[], 2⟩, ⟨[0], 2⟩], []⟩) :=
  ⟨by decide, pour_rejected_noop ⟨[⟨[], 2⟩, ⟨[0], 2⟩], []⟩ 0 1 (by decide)⟩

/-- Claim C3: a successful pour between distinct tubes moves exactly
`min(runLength, capacity)` segments: the source's colors decompose as
`l₁ ++ replicate n c` (`c` the top color, `n = pourCount`), the source is
left with `l₁`, the destination gains `replicate n c` on top, and the
recorded move has count `n`. -/
theorem pour_moves_min_run_capacity (s : GameState) (fi ti : Nat)
    (hf : fi < s.tubes.length) (ht : ti < s.tubes.length) (hne : fi ≠ ti)
    (hp : (pour s fi ti).1 = true) :
    ∃ c l₁,
      (tubeAt s fi).colors.getLast? = some c ∧
      (tubeAt s fi).colors = l₁ ++ List.replicate (pourCount s fi ti) c ∧
      (tubeAt (pour s fi ti).2 fi).colors = l₁ ∧
      (tubeAt (pour s fi ti).2 ti).colors =
        (tubeAt s ti).colors ++ List.replicate (pourCount s fi ti) c ∧
      (pour s fi ti).2.moveHistory =
        s.moveHistory ++ [⟨fi, ti, c, pourCount s fi ti⟩] := by
  rw [pour_fst] at hp
  obtain ⟨c, hc, hpe⟩ := pour_eq_of_canPour s fi ti hp
  obtain ⟨hne', hlt, -⟩ := (canPour_iff _ _).mp hp
  have hnrun : pourCount s fi ti ≤ topRun (tubeAt s fi).colors :=
    min_le_left _ _
  have hnspace : pourCount s fi ti ≤
      (tubeAt s ti).maxHeight - (tubeAt s ti).colors.length :=
    min_le_right _ _
  obtain ⟨l₁, hdec, hlen⟩ := topRun_decompose _ c hc _ hnrun
  refine ⟨c, l₁, hc, hdec, ?_, ?_, ?_⟩
  · rw [hpe]
    show ((modifyAt (fun t => t.addColors c (pourCount s fi ti)) ti
        (modifyAt (fun t => t.removeTopColors (pourCount s fi ti)) fi
          s.tubes)).getD fi defaultTube).colors = l₁
    rw [modifyAt_getD_other _ ti fi _ _ (Ne.symm hne)]
    rw [modifyAt_getD_same _ fi _ _ hf]
    show popTops (pourCount s fi ti) (tubeAt s fi).colors = l₁
    rw [hdec]
    have hp2 := popTops_append l₁ (List.replicate (pourCount s fi ti) c)
    simpa using hp2
  · rw [hpe]
    show ((modifyAt (fun t => t.addColors c (pourCount s fi ti)) ti
        (modifyAt (fun t => t.removeTopColors (pourCount s fi ti)) fi
          s.tubes)).getD ti defaultTube).colors =
      (tubeAt s ti).colors ++ List.replicate (pourCount s fi ti) c
    rw [modifyAt_getD_same _ ti _ _ (by rw [modifyAt_length]; exact ht)]
    rw [modifyAt_getD_other _ fi ti _ _ hne]
    show pushTops (tubeAt s ti).maxHeight c (pourCount s fi ti)
        (tubeAt s ti).colors =
      (tubeAt s ti).colors ++ List.replicate (pourCount s fi ti) c
    exact pushTops_eq_append _ c _ _ (by omega)
  · rw [hpe]
    rfl

/-- Witness for `pour_moves_min_run_capacity`: the spec's Scenario C.
Source `[3,3,3]`, destination `[3]` with `maxHeight 2`: capacity 1, run 3,
so exactly 1 segment moves; both tubes end as `[3,3]`. -/
theorem pour_moves_min_run_capacity_witness :
    (tubeAt (pour ⟨[⟨[3, 3, 3], 3⟩, ⟨[3], 2⟩], []⟩ 0 1).2 0).colors = [3, 3] ∧
    (tubeAt (pour ⟨[⟨[3, 3, 3], 3⟩, ⟨[3], 2⟩], []⟩ 0 1).2 1).colors = [3, 3] ∧
    (∃ c l₁,
      (tubeAt ⟨[⟨[3, 3, 3], 3⟩, ⟨[3], 2⟩], []⟩ 0).colors.getLast? = some c ∧
      (tubeAt ⟨[⟨[3, 3, 3], 3⟩, ⟨[3], 2⟩], []⟩ 0).colors =
        l₁ ++ List.replicate (pourCount ⟨[⟨[3, 3, 3], 3⟩, ⟨[3], 2⟩], []⟩ 0 1) c ∧
      (tubeAt (pour ⟨[⟨[3, 3, 3], 3⟩, ⟨[3], 2⟩], []⟩ 0 1).2 0).colors = l₁ ∧
      (tubeAt (pour ⟨[⟨[3, 3, 3], 3⟩, ⟨[3], 2⟩], []⟩ 0 1).2 1).colors =
        (tubeAt ⟨[⟨[3, 3, 3], 3⟩, ⟨[3], 2⟩], []⟩ 1).colors ++
          List.replicate (pourCount ⟨[⟨[3, 3, 3], 3⟩, ⟨[3], 2⟩], []⟩ 0 1) c ∧
      (pour ⟨[⟨[3, 3, 3], 3⟩, ⟨[3], 2⟩], []⟩ 0 1).2.moveHistory =
        [] ++ [⟨0, 1, c, pourCount ⟨[⟨[3, 3, 3], 3⟩, ⟨[3], 2⟩], []⟩ 0 1⟩]) :=
  ⟨by decide, by decide,
    pour_moves_min_run_capacity ⟨[⟨[3, 3, 3], 3⟩, ⟨[3], 2⟩], []⟩ 0 1
      (by decide) (by decide) (by decide) (by decide)⟩

/-- Claim C4 (code bug): on the board with one full monochrome tube and one
empty tube — every tube "completed or empty", so solved per the spec, per
`isSolved`'s own comment, and per the BFS's `isAlreadySolved` — `isSolved`
returns `false`, because `Tube.isCompleted` requires fullness and an empty
tube is never full. -/
theorem isSolved_rejects_empty_tube :
    isSolved [⟨[0, 0], 2⟩, ⟨[], 2⟩] = false ∧
    isAlreadySolved 2 [[0, 0], []] = true := by
  exact ⟨by decide, by decide⟩

/-- Claim C9 counterexample: a puzzle with `tubeCount = 1 < 2` is accepted:
`setup` returns `true` and generation completes (producing the single empty
tube), with no `InvalidParameters` failure anywhere. -/
theorem setup_accepts_single_tube :
    (setup [⟨[], 1⟩] []).1 = true ∧
    (setup [⟨[], 1⟩] []).2 = [⟨[], 1⟩] := by
  exact ⟨rfl, by decide⟩

/-- Claim C9 (amended): generation entry performs no parameter validation at
all: `setup` returns `true` for every input (its inner
`generateSolvablePuzzle` ends in an unconditional `return true`;
`validateTubes` merely skips generation when the tube list is empty).
No `InvalidParameters` error exists in the code, and no clamping occurs. -/
theorem setup_always_returns_true (tubes : List Tube) (choices : List Nat) :
    (setup tubes choices).1 = true := rfl

end WaterPour

namespace WaterPour

/-- Claim C7: `undo` is the exact left-inverse of a successful `pour`: it
returns `true`, restores every tube segment-for-segment, and shrinks the
ledger back to its previous value.  The hypothesis `hinv` is the data-model
invariant `len <= maxHeight` for the source tube (needed because
`addColors` is capacity-guarded). -/
theorem undo_inverts_pour (s : GameState) (fi ti : Nat)
    (hf : fi < s.tubes.length) (ht : ti < s.tubes.length)
    (hinv : (tubeAt s fi).colors.length ≤ (tubeAt s fi).maxHeight)
    (hp : (pour s fi ti).1 = true) :
    undo (pour s fi ti).2 = (true, s) := by
  rw [pour_fst] at hp
  obtain ⟨c, hc, hpe⟩ := pour_eq_of_canPour s fi ti hp
  obtain ⟨hne', hlt, -⟩ := (canPour_iff _ _).mp hp
  have hnrun : pourCount s fi ti ≤ topRun (tubeAt s fi).colors :=
    min_le_left _ _
  have hnspace : pourCount s fi ti ≤
      (tubeAt s ti).maxHeight - (tubeAt s ti).colors.length :=
    min_le_right _ _
  obtain ⟨l₁, hdec, hlen⟩ := topRun_decompose _ c hc _ hnrun
  rw [hpe]
  simp only [undo, executePour, List.getLast?_concat, List.dropLast_concat]
  by_cases heq : fi = ti
  · subst heq
    have hinner :
        modifyAt (fun t => t.addColors c (pourCount s fi fi)) fi
          (modifyAt (fun t => t.removeTopColors (pourCount s fi fi)) fi
            s.tubes) = s.tubes := by
      rw [modifyAt_modifyAt]
      exact modifyAt_eq_self _ fi _ defaultTube hf
        (tube_add_remove _ c _ l₁ hdec hinv)
    rw [hinner, hinner]
  · have hmid :
        modifyAt (fun t => t.removeTopColors (pourCount s fi ti)) ti
          (modifyAt (fun t => t.addColors c (pourCount s fi ti)) ti
            (modifyAt (fun t => t.removeTopColors (pourCount s fi ti)) fi
              s.tubes)) =
          modifyAt (fun t => t.removeTopColors (pourCount s fi ti)) fi
            s.tubes := by
      rw [modifyAt_modifyAt]
      refine modifyAt_eq_self _ ti _ defaultTube
        (by rw [modifyAt_length]; exact ht) ?_
      rw [modifyAt_getD_other _ fi ti _ _ heq]
      exact tube_remove_add (tubeAt s ti) c _ (by omega)
    rw [hmid]
    have hout :
        modifyAt (fun t => t.addColors c (pourCount s fi ti)) fi
          (modifyAt (fun t => t.removeTopColors (pourCount s fi ti)) fi
            s.tubes) = s.tubes := by
      rw [modifyAt_modifyAt]
      exact modifyAt_eq_self _ fi _ defaultTube hf
        (tube_add_remove _ c _ l₁ hdec hinv)
    rw [hout]

/-- Witness for `undo_inverts_pour`: pour tube 0 (`[1,2]`) onto tube 1
(`[2]`), then undo; the original state returns exactly. -/
theorem undo_inverts_pour_witness :
    undo (pour ⟨[⟨[1, 2], 3⟩, ⟨[2], 3⟩], []⟩ 0 1).2 =
      (true, ⟨[⟨[1, 2], 3⟩, ⟨[2], 3⟩], []⟩) :=
  undo_inverts_pour ⟨[⟨[1, 2], 3⟩, ⟨[2], 3⟩], []⟩ 0 1
    (by decide) (by decide) (by decide) (by decide)

/-- Claim C6: the valid-move list built by `applyRandomReversePour` contains
`(fi, ti, cnt)` exactly when `cnt = 1` (every reverse pour moves exactly
one segment), both indices are in range and distinct, the source tube is
non-empty, and the destination is strictly below its capacity — no
color-matching condition appears. -/
theorem reverseValidMoves_mem_iff (tubes : List Tube) (fi ti cnt : Nat) :
    (fi, ti, cnt) ∈ reverseValidMoves tubes ↔
      (cnt = 1 ∧ fi < tubes.length ∧ ti < tubes.length ∧ fi ≠ ti ∧
        (tubes.getD fi defaultTube).colors ≠ [] ∧
        (tubes.getD ti defaultTube).colors.length <
          (tubes.getD ti defaultTube).maxHeight) := by
  unfold reverseValidMoves
  simp only [List.mem_flatMap, List.mem_range]
  constructor
  · rintro ⟨fi', hfi', hmem⟩
    by_cases hemp : (tubes.getD fi' defaultTube).isEmpty = true
    · rw [if_pos hemp] at hmem
      simp at hmem
    · rw [if_neg hemp] at hmem
      rw [Bool.not_eq_true] at hemp
      simp only [List.mem_filterMap, List.mem_range] at hmem
      obtain ⟨ti', hti', hsome⟩ := hmem
      by_cases hft : (fi' == ti') = true
      · rw [if_pos hft] at hsome
        exact absurd hsome (by simp)
      · rw [if_neg hft] at hsome
        rcases hg : (tubes.getD fi' defaultTube).getTopColor with _ | c
        · rw [hg] at hsome
          exact absurd hsome (by simp)
        · rw [hg] at hsome
          by_cases hlen : (tubes.getD ti' defaultTube).colors.length <
              (tubes.getD ti' defaultTube).maxHeight
          · rw [if_pos hlen] at hsome
            simp only [Option.some.injEq, Prod.mk.injEq] at hsome
            obtain ⟨rfl, rfl, rfl⟩ := hsome
            refine ⟨rfl, hfi', hti', ?_, ?_, hlen⟩
            · intro hcon
              rw [hcon] at hft
              simp at hft
            · intro hcon
              rw [Tube.isEmpty, hcon] at hemp
              simp at hemp
          · rw [if_neg hlen] at hsome
            exact absurd hsome (by simp)
  · rintro ⟨rfl, hfi, hti, hne, hcol, hlen⟩
    have hif : (tubes.getD fi defaultTube).isEmpty = false := by
      cases hv : (tubes.getD fi defaultTube).colors with
      | nil => exact absurd hv hcol
      | cons a as => rw [Tube.isEmpty, hv]; rfl
    refine ⟨fi, hfi, ?_⟩
    rw [if_neg (by rw [hif]; simp)]
    simp only [List.mem_filterMap, List.mem_range]
    refine ⟨ti, hti, ?_⟩
    rw [if_neg (by simp [hne])]
    rcases hg : (tubes.getD fi defaultTube).getTopColor with _ | c
    · exact absurd (List.getLast?_eq_none_iff.mp hg) hcol
    · simp
      simpa using hlen

/-- Claim C10: the solvability search never explores a pour whose source tube
is completed: if tube `fi` is full and monochrome, `generateNextStates`
contains no successor whose from-index is `fi` — even though pouring from a
completed tube (e.g. into an empty one) is legal under the forward rule. -/
theorem solver_skips_completed_source (h : Nat) (board : List (List Nat))
    (fi : Nat) (hfull : (board.getD fi []).length = h)
    (hmono : allEqFirst (board.getD fi []) = true) :
    ∀ e ∈ generateNextStates h board, e.1 ≠ fi := by
  intro e he
  unfold generateNextStates at he
  simp only [List.mem_flatMap, List.mem_range, List.mem_filterMap] at he
  obtain ⟨fi', hfi', ti', hti', hsome⟩ := he
  rw [Option.map_eq_some'] at hsome
  obtain ⟨nb, hnb, rfl⟩ := hsome
  intro hcon
  simp only at hcon
  subst hcon
  unfold nextStateFor at hnb
  have hcond : ((board.getD fi' []).isEmpty ||
      minCompleted h (board.getD fi' [])) = true := by
    unfold minCompleted
    rw [hfull, hmono]
    simp
  rw [if_pos hcond] at hnb
  exact absurd hnb (by simp)

/-- Witness for `solver_skips_completed_source`: tube 0 of `[[0,0],[]]`
(height 2) is completed; no generated successor pours from it, although a
pour from it into the empty tube would be legal forward. -/
theorem solver_skips_completed_source_witness :
    (([[0, 0], []] : List (List Nat)).getD 0 []).length = 2 ∧
    allEqFirst (([[0, 0], []] : List (List Nat)).getD 0 []) = true ∧
    ∀ e ∈ generateNextStates 2 [[0, 0], []], e.1 ≠ 0 :=
  ⟨by decide, by decide,
    solver_skips_completed_source 2 [[0, 0], []] 0 (by decide) (by decide)⟩

end WaterPour

namespace WaterPour

theorem processNew_error_true (h : Nat) :
    ∀ (states queue : List (List (List Nat))) (visited : List String),
      processNew h states queue visited = Except.error true →
      ∃ nb ∈ states, isAlreadySolved h nb = true := by
  intro states
  induction states with
  | nil =>
    intro queue visited hp
    simp [processNew] at hp
  | cons nb rest ih =>
    intro queue visited hp
    unfold processNew at hp
    by_cases hs : isAlreadySolved h nb = true
    · exact ⟨nb, by simp, hs⟩
    · rw [if_neg hs] at hp
      by_cases hv : visited.contains (stateHash nb) = true
      · rw [if_pos hv] at hp
        obtain ⟨nb', hmem, hsol⟩ := ih _ _ hp
        exact ⟨nb', by simp [hmem], hsol⟩
      · rw [if_neg hv] at hp
        by_cases hb : MAX_BFS_STATES < (visited ++ [stateHash nb]).length
        · rw [if_pos hb] at hp
          simp at hp
        · rw [if_neg hb] at hp
          obtain ⟨nb', hmem, hsol⟩ := ih _ _ hp
          exact ⟨nb', by simp [hmem], hsol⟩

theorem bfsAux_true_finds_solved (h : Nat) :
    ∀ (fuel : Nat) (queue : List (List (List Nat))) (visited : List String),
      bfsAux h fuel queue visited = true →
      ∃ parent nb, nb ∈ (generateNextStates h parent).map (fun x => x.2.2) ∧
        isAlreadySolved h nb = true := by
  intro fuel
  induction fuel with
  | zero =>
    intro queue visited hb
    simp [bfsAux] at hb
  | succ n ih =>
    intro queue visited hb
    cases queue with
    | nil => simp [bfsAux] at hb
    | cons board rest =>
      unfold bfsAux at hb
      cases hp : processNew h
          ((generateNextStates h board).map fun x => x.2.2) rest visited with
      | error b =>
        simp only [hp] at hb
        cases b with
        | false => simp at hb
        | true =>
          obtain ⟨nb, hmem, hsol⟩ := processNew_error_true h _ _ _ hp
          exact ⟨board, nb, hmem, hsol⟩
      | ok qv =>
        obtain ⟨q2, v2⟩ := qv
        simp only [hp] at hb
        exact ih q2 v2 hb

/-- Claim C5: the bounded search can only answer `true` by meeting a solved
state: either the input board is already solved, or some successor state
generated during the search is solved.  In particular the budget-exhaustion
exit (`visited.size > MAX_BFS_STATES`) always returns `false` — `true` is
never returned on budget exhaustion. -/
theorem isSolvableBoard_true_only_via_solved (h : Nat)
    (board : List (List Nat)) (ht : isSolvableBoard h board = true) :
    isAlreadySolved h board = true ∨
      ∃ parent nb, nb ∈ (generateNextStates h parent).map (fun x => x.2.2) ∧
        isAlreadySolved h nb = true := by
  unfold isSolvableBoard at ht
  by_cases hs : isAlreadySolved h board = true
  · exact Or.inl hs
  · rw [if_neg hs] at ht
    cases hvb : hasValidColorCounts h board with
    | false =>
      rw [hvb] at ht
      simp at ht
    | true =>
      rw [hvb] at ht
      simp only [Bool.not_true, Bool.false_eq_true, if_false] at ht
      unfold performSolvabilityBFS at ht
      exact Or.inr (bfsAux_true_finds_solved h _ _ _ ht)

/-- Witness for `isSolvableBoard_true_only_via_solved`: the board
`[[0],[0]]` at height 2 is solvable (one pour reaches `[[],[0,0]]`). -/
theorem isSolvableBoard_true_only_via_solved_witness :
    isSolvableBoard 2 [[0], [0]] = true ∧
    (isAlreadySolved 2 [[0], [0]] = true ∨
      ∃ parent nb, nb ∈ (generateNextStates 2 parent).map (fun x => x.2.2) ∧
        isAlreadySolved 2 nb = true) :=
  ⟨by decide, isSolvableBoard_true_only_via_solved 2 [[0], [0]] (by decide)⟩

/-- Claim C1 counterexample: with `tubeCount = 3 ≥ 2`, `tubeHeight = 3 ≥ 1`
and the realizable random-choice sequence `cexChoices`, all five generation
attempts fail the `isSolvable` check, and the simple-puzzle fallback —
which skips the check — hands the player `[[0,0,1],[1,1,0],[]]`, on which
`isSolvable` returns `false` (the state is in fact solvable by forward
pours, but the pruned search rejects it). -/
theorem generation_can_hand_over_isSolvable_false :
    isSolvable (generateSolvablePuzzleFromSolvedState cexTubes cexChoices) =
      false ∧
    generateSolvablePuzzleFromSolvedState cexTubes cexChoices =
      [⟨[0, 0, 1], 3⟩, ⟨[1, 1, 0], 3⟩, ⟨[], 3⟩] :=
  ⟨by decide, by decide⟩

/-- Claim C1 (amended): the retry path does guarantee the contract — whenever
the attempt loop accepts a scramble, the state it returns satisfies
`isSolvable = true`.  (The fallback path gives no such guarantee; see the
counterexample.) -/
theorem genAttemptLoop_accepts_only_isSolvable (tc th : Nat) :
    ∀ (n : Nat) (tubes : List Tube) (choices : List Nat),
      (genAttemptLoop tc th n tubes choices).2.2 = true →
      isSolvable (genAttemptLoop tc th n tubes choices).1 = true := by
  intro n
  induction n with
  | zero =>
    intro tubes choices hok
    simp [genAttemptLoop] at hok
  | succ m ih =>
    intro tubes choices hok
    simp only [genAttemptLoop] at hok ⊢
    split at hok
    next hs =>
      rw [if_pos hs]
      exact hs
    next hs =>
      rw [if_neg hs]
      exact ih _ _ hok

/-- Witness for `genAttemptLoop_accepts_only_isSolvable`: with two tubes of
height 1 the very first attempt is accepted. -/
theorem genAttemptLoop_accepts_only_isSolvable_witness :
    (genAttemptLoop 2 1 5 [⟨[], 1⟩, ⟨[], 1⟩] []).2.2 = true ∧
    isSolvable (genAttemptLoop 2 1 5 [⟨[], 1⟩, ⟨[], 1⟩] []).1 = true :=
  ⟨by decide,
    genAttemptLoop_accepts_only_isSolvable 2 1 5 [⟨[], 1⟩, ⟨[], 1⟩] []
      (by decide)⟩

end WaterPour
